import Mathlib

/-!
Verification of the Pokerhands repository (PokerOddsCalculator.py) against
its natural-language specification.  The pure functions of the engine are
embedded as executable Lean definitions; Python strings become `List Char`
values, two-character card codes become pairs of characters, machine
randomness and the external deuces evaluator are abstracted as explicit
trial data, and fallible operations return `Except`/`Option`.
-/

namespace PokerHands

/-- One card code as `analyze_hand` sees it: the pair of the two characters
of a card string such as "as" or "As" (the Python expressions appearing in
the source as the subscripts c[0] and c[1]). -/
abbrev PyCard := Char × Char

/-- Python constant RANKS, the thirteen rank characters in ascending order. -/
def RANKS : List Char := ['2', '3', '4', '5', '6', '7', '8', '9', 'T', 'J', 'Q', 'K', 'A']

/-- Python constant SUITS, the four suit characters. -/
def SUITS : List Char := ['s', 'h', 'd', 'c']

/-- Python dictionary RANK_TO_VALUE, mapping each rank character to its
numeric value, 2 up to 14 for the ace.  Python raises KeyError on characters
outside RANKS; that case, unreachable from valid codes, is modelled as 0. -/
def RANK_TO_VALUE (r : Char) : Nat :=
  if r = '2' then 2 else if r = '3' then 3 else if r = '4' then 4
  else if r = '5' then 5 else if r = '6' then 6 else if r = '7' then 7
  else if r = '8' then 8 else if r = '9' then 9 else if r = 'T' then 10
  else if r = 'J' then 11 else if r = 'Q' then 12 else if r = 'K' then 13
  else if r = 'A' then 14 else 0

/-- Keys of a Python collections.Counter built from `l`, in first-insertion
order (Python dictionaries preserve the order in which keys first appear). -/
def counterKeys [DecidableEq α] : List α → List α
  | [] => []
  | x :: xs => x :: (counterKeys xs).filter (fun y => y ≠ x)

/-- Values of a Python collections.Counter built from `l`, listed in the
same first-insertion key order as `counterKeys`. -/
def counterValues [DecidableEq α] (l : List α) : List Nat :=
  (counterKeys l).map (fun k => l.count k)

/-- Scanning loop of get_straight: return the first element whose difference
with the element four places later equals 4 (the scanned lists are strictly
decreasing, so Python integer subtraction agrees with truncated Nat
subtraction). -/
def straightScan : List Nat → Option Nat
  | a :: b :: c :: d :: e :: rest =>
      if a - e = 4 then some a else straightScan (b :: c :: d :: e :: rest)
  | _ => none

/-- Inner function get_straight of analyze_hand, source lines 64-72: sort the
distinct rank values descending, append a low ace when the wheel ranks
A-2-3-4-5 are all present, and scan for five consecutive values.  Here
`some high` plays the role of the Python pair (True, high) and `none` of
(False, None). -/
def get_straight (ranks_list : List Char) : Option Nat :=
  let values := ((ranks_list.map RANK_TO_VALUE).dedup.insertionSort (· ≤ ·)).reverse
  let values := if ∀ r ∈ (['A', '2', '3', '4', '5'] : List Char), r ∈ ranks_list
    then values ++ [1] else values
  straightScan values

/-- Local variable ranks of analyze_hand: the uppercased first character of
each card. -/
def ranksOf (cards : List PyCard) : List Char := cards.map (fun c => c.1.toUpper)

/-- Local variable suits of analyze_hand: the lowercased second character of
each card. -/
def suitsOf (cards : List PyCard) : List Char := cards.map (fun c => c.2.toLower)

/-- Flush-suit search of analyze_hand, source lines 55-59: the first key of
suit_counts whose count is at least 5, or None. -/
def flushSuitOf (cards : List PyCard) : Option Char :=
  (counterKeys (suitsOf cards)).find? (fun s => 5 ≤ (suitsOf cards).count s)

/-- Local variable flush_cards of analyze_hand, source line 60.  Note that
the source compares the raw second character of each card (not lowered) with
the lowered flush suit. -/
def flushCardsOf (cards : List PyCard) : List PyCard :=
  match flushSuitOf cards with
  | some fs => cards.filter (fun c => c.2 = fs)
  | none => []

/-- Local variable flush_ranks of analyze_hand, source line 61. -/
def flushRanksOf (cards : List PyCard) : List Char :=
  (flushCardsOf cards).map (fun c => c.1.toUpper)

/-- Python max over a list with a key function: the first element attaining
the maximal key (later elements replace the current best only when strictly
greater).  Python max of an empty list raises; that case, unreachable here
because the callers guarantee at least 5 cards, is modelled as a blank. -/
def pymax (key : Char → Nat) : List Char → Char
  | [] => ' '
  | x :: xs => xs.foldl (fun b y => if key b < key y then y else b) x

/-- Tail of analyze_hand after the straight-flush check, source lines 82-105:
four of a kind, full house, flush, straight, three of a kind, two pair, pair,
high card. -/
def analyzeRest (cards : List PyCard) : String :=
  let vals := counterValues (ranksOf cards)
  if 4 ∈ vals then "Four of a Kind"
  else if 3 ∈ vals ∧ 2 ∈ vals then "Full House"
  else if (flushSuitOf cards).isSome then "Flush"
  else if (get_straight (ranksOf cards)).isSome then "Straight"
  else if 3 ∈ vals then "Three of a Kind"
  else if 2 ≤ vals.count 2 then "Two Pair"
  else if 2 ∈ vals then "Pair"
  else String.push "High Card: " (pymax RANK_TO_VALUE (ranksOf cards))

/-- Function analyze_hand, source lines 44-105: the deterministic hand
classifier.  Fewer than five cards yield the informational message;
otherwise the checks run from straight flush down to high card. -/
def analyze_hand (cards : List PyCard) : String :=
  if cards.length < 5 then "Not enough cards for hand analysis."
  else if (flushSuitOf cards).isSome ∧ 5 ≤ (flushRanksOf cards).length then
    match get_straight (flushRanksOf cards) with
    | some hi => if hi = 14 then "Royal Flush" else "Straight Flush"
    | none => analyzeRest cards
  else analyzeRest cards

/-! ### Card parsing (parse_card, CARD_PATTERN) -/

/-- Whitespace characters removed by the Python str.strip method: the full
set of 29 codepoints with the Unicode whitespace property that CPython
strips (tab through carriage return, the four information separators, space,
next line, no-break space, ogham space mark, the en/em family, line and
paragraph separators, narrow no-break space, medium mathematical space and
ideographic space). -/
def pyIsSpace (c : Char) : Bool :=
  c.toNat ∈ [0x09, 0x0A, 0x0B, 0x0C, 0x0D, 0x1C, 0x1D, 0x1E, 0x1F, 0x20,
    0x85, 0xA0, 0x1680, 0x2000, 0x2001, 0x2002, 0x2003, 0x2004, 0x2005,
    0x2006, 0x2007, 0x2008, 0x2009, 0x200A, 0x2028, 0x2029, 0x202F, 0x205F,
    0x3000]

/-- Python str.strip: remove leading and trailing whitespace. -/
def pyStrip (s : List Char) : List Char :=
  ((s.dropWhile pyIsSpace).reverse.dropWhile pyIsSpace).reverse

/-- Python str.lower on the characters that CARD_PATTERN can accept: ASCII
uppercase letters lower as usual and the Kelvin sign U+212A lowers to k;
every other character the pattern can match (digits, lowercase letters, the
long s U+017F) is a fixed point of str.lower.  The one character whose
str.lower image has length two, the dotted capital I U+0130, lowers to a
string starting with i, which no class of the pattern matches, so on every
input the embedded parse accepts, rejects and returns exactly as the
source does. -/
def pyLower (c : Char) : Char :=
  if c = '\u212A' then 'k' else c.toLower

/-- Membership of an already-lowered character in the regex class [2-9TJQKA]
under re.IGNORECASE.  The preimage of this predicate is the exact match set
of the class: the digits, T J Q K A in both cases, and the Kelvin sign
(which re.IGNORECASE folds to k). -/
def isRankClassChar (c : Char) : Bool :=
  pyLower c ∈ (['2', '3', '4', '5', '6', '7', '8', '9', 't', 'j', 'q', 'k', 'a'] : List Char)

/-- Membership of an already-lowered character in the regex class [shdc]
under re.IGNORECASE, whose exact match set is s h d c in both cases plus the
long s U+017F (folded to s by re.IGNORECASE and a fixed point of
str.lower). -/
def isSuitClassChar (c : Char) : Bool :=
  pyLower c ∈ (['s', 'h', 'd', 'c', 'ſ'] : List Char)

/-- Match of the compiled regex CARD_PATTERN (source line 19) against a
string: two class characters ending the string, where the Python dollar
anchor also matches just before one trailing newline. -/
def cardPatternMatch (s : List Char) : Bool :=
  match s with
  | [r, su] => isRankClassChar r && isSuitClassChar su
  | [r, su, nl] => isRankClassChar r && isSuitClassChar su && nl = '\n'
  | _ => false

/-- Function parse_card, source lines 37-41: strip whitespace, lowercase,
and return the processed string when the card pattern matches, else None. -/
def parse_card (s : List Char) : Option (List Char) :=
  let card := (pyStrip s).map pyLower
  if cardPatternMatch card then some card else none

/-- All 52 canonical card codes in lowercase: each rank of RANKS paired with
each suit of SUITS. -/
def canonical52 : List (List Char) :=
  (RANKS.map Char.toLower).flatMap (fun r => SUITS.map (fun s => [r, s]))

/-! ### Monte Carlo win/tie/loss tally (monte_carlo_odds) -/

/-- Evaluated deuces ranks of one Monte Carlo trial: the rank of the hero
hand and the ranks of the opponent hands over the same simulated board
(lower is stronger), as produced by the external deuces Evaluator on the
randomly drawn cards; the randomness and the evaluator are abstracted as
explicit trial data. -/
structure TrialScores where
  hero : Nat
  opps : List Nat

/-- Python min of a list of naturals.  Python min of an empty list raises;
that case, unreachable in monte_carlo_odds because num_players at least 2
gives at least one opponent, is modelled as 0. -/
def pymin : List Nat → Nat
  | [] => 0
  | x :: xs => xs.foldl Nat.min x

/-- Win/tie/loss update of one trial of monte_carlo_odds, source lines
146-151: the hero wins when its rank is below the minimum opponent rank,
ties when equal to it, and loses otherwise. -/
def tallyStep (acc : Nat × Nat × Nat) (t : TrialScores) : Nat × Nat × Nat :=
  if t.hero < pymin t.opps then (acc.1 + 1, acc.2.1, acc.2.2)
  else if t.hero = pymin t.opps then (acc.1, acc.2.1 + 1, acc.2.2)
  else (acc.1, acc.2.1, acc.2.2 + 1)

/-- Counters (wins, ties, losses) after the trial loop of monte_carlo_odds,
source lines 124-151. -/
def monteCarloCounts (trials : List TrialScores) : Nat × Nat × Nat :=
  trials.foldl tallyStep (0, 0, 0)

/-- Function monte_carlo_odds, source lines 122-154, given the evaluated
scores of its trials: returns the pair of win and tie percentages,
100 * wins / num_trials and 100 * ties / num_trials (exact rationals
standing for the Python floats). -/
def monte_carlo_odds (trials : List TrialScores) : ℚ × ℚ :=
  let c := monteCarloCounts trials
  (100 * c.1 / trials.length, 100 * c.2.1 / trials.length)

/-! ### Deck drawing (draw counts per trial) -/

/-- One deck draw on a deck with a known card order: pop the next card; an
empty deck is the EmptyDeckError failure of the spec. -/
def pydraw (deck : List α) : Option (α × List α) :=
  match deck with
  | [] => none
  | c :: rest => some (c, rest)

/-- A fixed number of successive deck draws, failing if any draw hits an
empty deck. -/
def drawN : Nat → List α → Option (List α × List α)
  | 0, deck => some ([], deck)
  | n + 1, deck =>
      match pydraw deck with
      | none => none
      | some (c, rest) =>
          match drawN n rest with
          | none => none
          | some (cs, deck2) => some (c :: cs, deck2)

/-- Number of cards one monte_carlo_odds trial draws, source lines 136-141:
5 minus the board size to complete the board, plus two per opponent. -/
def trialDrawCount (boardLen numPlayers : Nat) : Nat :=
  (5 - boardLen) + 2 * (numPlayers - 1)

/-- Number of cards one monte_carlo_preflop_distributions trial draws,
source lines 193-211: 3 flop cards, 1 turn card, 1 river card, plus two per
opponent. -/
def preflopDrawCount (numPlayers : Nat) : Nat := 3 + 1 + 1 + 2 * (numPlayers - 1)

/-- Deck size at the start of a trial after removing the 2 hero hole cards
and the known board cards from the 52-card deck, source lines 131-134. -/
def deckSizeAfterRemoval (boardLen : Nat) : Nat := 52 - (2 + boardLen)

/-- All draws of one monte_carlo_odds trial performed on deck `deck`. -/
def monteCarloTrialDraws (boardLen numPlayers : Nat) (deck : List α) :
    Option (List α × List α) :=
  drawN (trialDrawCount boardLen numPlayers) deck

/-- All draws of one monte_carlo_preflop_distributions trial performed on
deck `deck`. -/
def preflopTrialDraws (numPlayers : Nat) (deck : List α) :
    Option (List α × List α) :=
  drawN (preflopDrawCount numPlayers) deck

/-! ### Preflop equity cache (calculate_odds, lines 483-490) -/

/-- Python sorted on a list of strings (lexicographic string order). -/
def pysorted (l : List String) : List String := l.insertionSort (· ≤ ·)

/-- A preflop cache key: the sorted pair of hole-card codes together with
the player count, modelling the Python tuple built on source line 484. -/
abbrev PreKey := List String × Nat

/-- Key construction of source line 484. -/
def preflopKey (hand : List String) (players : Nat) : PreKey :=
  (pysorted hand, players)

/-- Preflop cache consultation of calculate_odds, source lines 483-490: look
up the key; on a miss run the 500000-trial simulation (abstracted as
`compute`), store its result and persist the cache.  Returns the result, the
updated cache, and whether the simulation ran. -/
def calcOddsPreflop (cache : List (PreKey × α)) (hand : List String)
    (players : Nat) (compute : Unit → α) : α × List (PreKey × α) × Bool :=
  let key := preflopKey hand players
  match cache.lookup key with
  | some v => (v, cache, false)
  | none =>
      let v := compute ()
      (v, (key, v) :: cache, true)

/-! ### Cache persistence (load_preflop_cache, save_preflop_cache) -/

/-- What a read of the pickle backing store can encounter: the cache file
may be absent, present but failing to unpickle, or present with a stored
cache. -/
inductive StoreRead (α : Type) where
  | absent
  | corrupt (msg : String)
  | stored (cache : α)

/-- Test os.path.exists on the cache file. -/
def storeExists : StoreRead α → Bool
  | .absent => false
  | _ => true

/-- Call to pickle.load: yields the stored value or raises. -/
def pickleLoad : StoreRead α → Except String α
  | .absent => .error "file not found"
  | .corrupt m => .error m
  | .stored c => .ok c

/-- Method load_preflop_cache, source lines 404-411: when the cache file
exists, try to unpickle it and fall back to the empty dictionary when
loading raises; with no file return the empty dictionary. -/
def load_preflop_cache (store : StoreRead (List (PreKey × α))) :
    List (PreKey × α) :=
  if storeExists store then
    match pickleLoad store with
    | .ok c => c
    | .error _ => []
  else []

/-- Outcome of pickle.dump on the opened cache file. -/
inductive WriteOutcome where
  | success
  | failure (msg : String)

/-- Call to pickle.dump: succeeds or raises. -/
def pickleDump : WriteOutcome → Except String Unit
  | .success => .ok ()
  | .failure m => .error m

/-- Method save_preflop_cache, source lines 413-418: try to dump the cache;
any raised exception is swallowed by the bare except-pass, so the caller
always gets a normal return. -/
def save_preflop_cache (w : WriteOutcome) : Except String Unit :=
  match pickleDump w with
  | .ok _ => .ok ()
  | .error _ => .ok ()

/-! ### Hand category names, deuces class ordinals and examples -/

/-- Table modelling the class_to_string method of the external deuces
Evaluator (its RANK_CLASS_TO_STRING lookup table): deuces rank classes run
from 1 = Straight Flush (strongest) down to 9 = High Card.  calculate_odds
renders the name of distribution row i with this table (source lines 475 and
500), and the distribution tallies are keyed by the deuces get_rank_class
ordinal.  The Python KeyError on ordinals outside 1..9 is modelled as the
empty string. -/
def deucesClassToString (i : Nat) : String :=
  if i = 1 then "Straight Flush" else if i = 2 then "Four of a Kind"
  else if i = 3 then "Full House" else if i = 4 then "Flush"
  else if i = 5 then "Straight" else if i = 6 then "Three of a Kind"
  else if i = 7 then "Two Pair" else if i = 8 then "Pair"
  else if i = 9 then "High Card" else ""

/-- Constant HAND_CLASS_NAMES, source lines 222-224: the repository lists
the nine categories from High Card up to Straight Flush. -/
def HAND_CLASS_NAMES : List String :=
  ["High Card", "Pair", "Two Pair", "Three of a Kind", "Straight", "Flush",
   "Full House", "Four of a Kind", "Straight Flush"]

/-- Card codes rendered by each HAND_TYPE_EXAMPLES lambda, source lines
227-237.  The source comments label entry 1 High Card, entry 2 Pair, up to
entry 9 Straight Flush. -/
def HAND_TYPE_EXAMPLES (i : Nat) : List PyCard :=
  if i = 1 then [('A', 's')]
  else if i = 2 then [('A', 's'), ('A', 'h')]
  else if i = 3 then [('A', 's'), ('A', 'h'), ('K', 's'), ('K', 'h')]
  else if i = 4 then [('A', 's'), ('A', 'h'), ('A', 'd')]
  else if i = 5 then [('A', 's'), ('K', 's'), ('Q', 's'), ('J', 's'), ('T', 's')]
  else if i = 6 then [('A', 's'), ('J', 's'), ('8', 's'), ('4', 's'), ('2', 's')]
  else if i = 7 then [('A', 's'), ('A', 'h'), ('A', 'd'), ('K', 's'), ('K', 'h')]
  else if i = 8 then [('A', 's'), ('A', 'h'), ('A', 'd'), ('A', 'c')]
  else if i = 9 then [('A', 's'), ('K', 's'), ('Q', 's'), ('J', 's'), ('T', 's')]
  else []

/-- A valid parsed card code: its rank character belongs to RANKS up to
letter case and its suit character to SUITS up to letter case (exactly the
codes accepted by parse_card). -/
def validPyCard (c : PyCard) : Prop :=
  c.1.toUpper ∈ RANKS ∧ c.2.toLower ∈ SUITS

instance : DecidablePred validPyCard := fun c => by
  unfold validPyCard; infer_instance

/-! ### Helper lemmas: tallying -/

theorem tallyStep_sum (acc : Nat × Nat × Nat) (t : TrialScores) :
    (tallyStep acc t).1 + (tallyStep acc t).2.1 + (tallyStep acc t).2.2
      = acc.1 + acc.2.1 + acc.2.2 + 1 := by
  unfold tallyStep
  split_ifs <;> simp <;> omega

theorem foldl_tallyStep_sum (trials : List TrialScores) (acc : Nat × Nat × Nat) :
    (trials.foldl tallyStep acc).1 + (trials.foldl tallyStep acc).2.1
      + (trials.foldl tallyStep acc).2.2 = acc.1 + acc.2.1 + acc.2.2 + trials.length := by
  induction trials generalizing acc with
  | nil => simp
  | cons t ts ih =>
      simp only [List.foldl_cons, List.length_cons, ih, tallyStep_sum]
      omega

theorem monteCarloCounts_sum (trials : List TrialScores) :
    (monteCarloCounts trials).1 + (monteCarloCounts trials).2.1
      + (monteCarloCounts trials).2.2 = trials.length := by
  unfold monteCarloCounts
  rw [foldl_tallyStep_sum]
  simp

/-! ### Helper lemmas: deck draws -/

theorem drawN_isSome_of_le (n : Nat) (deck : List α) (h : n ≤ deck.length) :
    (drawN n deck).isSome := by
  induction n generalizing deck with
  | zero => rfl
  | succ m ih =>
      cases deck with
      | nil => simp at h
      | cons c rest =>
          simp only [drawN, pydraw]
          have hm : m ≤ rest.length := by simpa using Nat.le_of_succ_le_succ h
          have := ih rest hm
          cases hd : drawN m rest with
          | none => rw [hd] at this; simp at this
          | some p => simp [hd]

/-! ### Helper lemmas: sorting a two-element list -/

theorem pysorted_pair_comm (a b : String) : pysorted [a, b] = pysorted [b, a] := by
  unfold pysorted
  simp only [List.insertionSort, List.orderedInsert]
  rcases le_total a b with h | h
  · rw [if_pos h]
    by_cases h2 : b ≤ a
    · rw [if_pos h2, le_antisymm h h2]
    · rw [if_neg h2]
  · rw [if_pos h]
    by_cases h2 : a ≤ b
    · rw [if_pos h2, le_antisymm h h2]
    · rw [if_neg h2]

/-! ### Claim theorems (first group) -/

/-- C2 counterexample: the classifier applied to the ace-high straight flush
in spades does not return the label "Straight Flush"; the source has a
dedicated "Royal Flush" branch (lines 78-79). -/
theorem C2_counterexample :
    analyze_hand [('A', 's'), ('K', 's'), ('Q', 's'), ('J', 's'), ('T', 's')]
      ≠ "Straight Flush" := by decide

/-- C2 (amended): the classifier applied to the five cards As Ks Qs Js Ts
returns the label "Royal Flush", a tenth label that is not among the nine
HandCategory variants. -/
theorem C2_royal_flush_label :
    analyze_hand [('A', 's'), ('K', 's'), ('Q', 's'), ('J', 's'), ('T', 's')]
        = "Royal Flush"
      ∧ "Royal Flush" ∉ HAND_CLASS_NAMES := by decide

/-- C3: the ordinal convention of the rendered distribution table is
internally inconsistent.  The name of row 7 comes from the deuces table
("Two Pair", deuces classes run 1 = Straight Flush down to 9 = High Card),
while the example cards of row 7 are a full house by the repository's own
classifier; likewise ordinal 1 is named "Straight Flush" although the
repository's own HAND_CLASS_NAMES list starts with "High Card". -/
theorem C3_ordinal_name_example_mismatch :
    deucesClassToString 7 = "Two Pair"
      ∧ analyze_hand (HAND_TYPE_EXAMPLES 7) = "Full House"
      ∧ ("Two Pair" : String) ≠ "Full House"
      ∧ deucesClassToString 1 = "Straight Flush"
      ∧ HAND_CLASS_NAMES.head? = some "High Card"
      ∧ HAND_TYPE_EXAMPLES 1 = [('A', 's')] := by decide

/-- C5: the wheel A-2-3-4-5 with mixed suits classifies as "Straight" (a
5-high straight, not a high card), the ace has high value 14, and straight
detection accepts the ace both high (A-K-Q-J-T scans as 14-high) and low
(A-2-3-4-5 scans as 5-high). -/
theorem C5_wheel_straight :
    analyze_hand [('A', 's'), ('2', 'h'), ('3', 'd'), ('4', 'c'), ('5', 's')]
        = "Straight"
      ∧ RANK_TO_VALUE 'A' = 14
      ∧ get_straight ['A', '2', '3', '4', '5'] = some 5
      ∧ get_straight ['A', 'K', 'Q', 'J', 'T'] = some 14 := by decide

/-- C7: loading the preflop cache yields the empty cache when the backing
file is absent or fails to unpickle and the stored cache otherwise, and
saving always returns normally whatever the write outcome: neither
operation propagates an error to the caller. -/
theorem C7_cache_persistence_degrades :
    (∀ (α : Type) (msg : String) (c : List (PreKey × α)),
        load_preflop_cache (StoreRead.absent) = ([] : List (PreKey × α))
      ∧ load_preflop_cache (StoreRead.corrupt msg) = ([] : List (PreKey × α))
      ∧ load_preflop_cache (StoreRead.stored c) = c)
    ∧ ∀ w : WriteOutcome, save_preflop_cache w = Except.ok () := by
  constructor
  · intro α msg c
    exact ⟨rfl, rfl, rfl⟩
  · intro w
    cases w <;> rfl

/-- C9: given fewer than five cards, analyze_hand returns the informational
message (the exact source string carries a trailing period), which is not
one of the nine hand category names. -/
theorem C9_insufficient_cards (cards : List PyCard) (h : cards.length < 5) :
    analyze_hand cards = "Not enough cards for hand analysis."
      ∧ "Not enough cards for hand analysis." ∉ HAND_CLASS_NAMES := by
  constructor
  · unfold analyze_hand
    rw [if_pos h]
  · decide

/-- C9 witness: the two-card input As Kh. -/
theorem C9_witness :
    ([('A', 's'), ('K', 'h')] : List PyCard).length < 5
      ∧ (analyze_hand [('A', 's'), ('K', 'h')]
            = "Not enough cards for hand analysis."
         ∧ "Not enough cards for hand analysis." ∉ HAND_CLASS_NAMES) :=
  ⟨by decide, C9_insufficient_cards [('A', 's'), ('K', 'h')] (by decide)⟩

/-! ### Helper lemmas: percentages -/

theorem pct_facts (w t l n : Nat) (hn : 1 ≤ n) (hsum : w + t + l = n) :
    100 * (w : ℚ) / n + 100 * (t : ℚ) / n + 100 * (l : ℚ) / n = 100
    ∧ (0 ≤ 100 * (w : ℚ) / n ∧ 100 * (w : ℚ) / n ≤ 100)
    ∧ (0 ≤ 100 * (t : ℚ) / n ∧ 100 * (t : ℚ) / n ≤ 100)
    ∧ (0 ≤ 100 * (l : ℚ) / n ∧ 100 * (l : ℚ) / n ≤ 100) := by
  have hnq : (0 : ℚ) < n := by exact_mod_cast hn
  have hq : (w : ℚ) + t + l = n := by exact_mod_cast hsum
  have hw0 : (0 : ℚ) ≤ w := Nat.cast_nonneg w
  have ht0 : (0 : ℚ) ≤ t := Nat.cast_nonneg t
  have hl0 : (0 : ℚ) ≤ l := Nat.cast_nonneg l
  refine ⟨?_, ⟨?_, ?_⟩, ⟨?_, ?_⟩, ⟨?_, ?_⟩⟩
  · field_simp
    linarith
  · positivity
  · rw [div_le_iff₀ hnq]; linarith
  · positivity
  · rw [div_le_iff₀ hnq]; linarith
  · positivity
  · rw [div_le_iff₀ hnq]; linarith

theorem tallyStep_cases (acc : Nat × Nat × Nat) (t : TrialScores) :
    (t.hero < pymin t.opps ∧ tallyStep acc t = (acc.1 + 1, acc.2.1, acc.2.2))
  ∨ (t.hero = pymin t.opps ∧ tallyStep acc t = (acc.1, acc.2.1 + 1, acc.2.2))
  ∨ (pymin t.opps < t.hero ∧ tallyStep acc t = (acc.1, acc.2.1, acc.2.2 + 1)) := by
  unfold tallyStep
  rcases Nat.lt_trichotomy t.hero (pymin t.opps) with h | h | h
  · exact Or.inl ⟨h, by rw [if_pos h]⟩
  · exact Or.inr (Or.inl ⟨h, by rw [if_neg (by omega), if_pos h]⟩)
  · exact Or.inr (Or.inr ⟨h, by rw [if_neg (by omega), if_neg (by omega)]⟩)

/-- C1: in monte_carlo_odds every trial falls into exactly one of the three
outcome branches — win when the hero rank is strictly below (stronger than)
the minimum opponent rank, tie when equal to it, loss otherwise — so the
three counters sum to the number of trials, the three percentages of the
form 100 * count / num_trials sum to 100 with each lying in [0, 100], and
the function returns the win and tie percentages. -/
theorem C1_outcome_tally (trials : List TrialScores)
    (hn : 1 ≤ trials.length) (_hopp : ∀ t ∈ trials, t.opps ≠ []) :
    (∀ acc : Nat × Nat × Nat, ∀ t ∈ trials,
        (t.hero < pymin t.opps ∧ tallyStep acc t = (acc.1 + 1, acc.2.1, acc.2.2))
      ∨ (t.hero = pymin t.opps ∧ tallyStep acc t = (acc.1, acc.2.1 + 1, acc.2.2))
      ∨ (pymin t.opps < t.hero ∧ tallyStep acc t = (acc.1, acc.2.1, acc.2.2 + 1)))
    ∧ (monteCarloCounts trials).1 + (monteCarloCounts trials).2.1
        + (monteCarloCounts trials).2.2 = trials.length
    ∧ 100 * ((monteCarloCounts trials).1 : ℚ) / trials.length
        + 100 * ((monteCarloCounts trials).2.1 : ℚ) / trials.length
        + 100 * ((monteCarloCounts trials).2.2 : ℚ) / trials.length = 100
    ∧ (0 ≤ 100 * ((monteCarloCounts trials).1 : ℚ) / trials.length
        ∧ 100 * ((monteCarloCounts trials).1 : ℚ) / trials.length ≤ 100)
    ∧ (0 ≤ 100 * ((monteCarloCounts trials).2.1 : ℚ) / trials.length
        ∧ 100 * ((monteCarloCounts trials).2.1 : ℚ) / trials.length ≤ 100)
    ∧ (0 ≤ 100 * ((monteCarloCounts trials).2.2 : ℚ) / trials.length
        ∧ 100 * ((monteCarloCounts trials).2.2 : ℚ) / trials.length ≤ 100)
    ∧ monte_carlo_odds trials
        = (100 * ((monteCarloCounts trials).1 : ℚ) / trials.length,
           100 * ((monteCarloCounts trials).2.1 : ℚ) / trials.length) := by
  have hsum := monteCarloCounts_sum trials
  have hp := pct_facts (monteCarloCounts trials).1 (monteCarloCounts trials).2.1
    (monteCarloCounts trials).2.2 trials.length hn hsum
  exact ⟨fun acc t _ => tallyStep_cases acc t, hsum, hp.1, hp.2.1, hp.2.2.1, hp.2.2.2, rfl⟩

/-- C1 witness: three trials against a single opponent, one of each
outcome. -/
theorem C1_witness :
    1 ≤ ([⟨1, [2]⟩, ⟨3, [3]⟩, ⟨5, [4]⟩] : List TrialScores).length
    ∧ ((∀ acc : Nat × Nat × Nat,
          ∀ t ∈ ([⟨1, [2]⟩, ⟨3, [3]⟩, ⟨5, [4]⟩] : List TrialScores),
        (t.hero < pymin t.opps ∧ tallyStep acc t = (acc.1 + 1, acc.2.1, acc.2.2))
      ∨ (t.hero = pymin t.opps ∧ tallyStep acc t = (acc.1, acc.2.1 + 1, acc.2.2))
      ∨ (pymin t.opps < t.hero ∧ tallyStep acc t = (acc.1, acc.2.1, acc.2.2 + 1)))
    ∧ (monteCarloCounts [⟨1, [2]⟩, ⟨3, [3]⟩, ⟨5, [4]⟩]).1
        + (monteCarloCounts [⟨1, [2]⟩, ⟨3, [3]⟩, ⟨5, [4]⟩]).2.1
        + (monteCarloCounts [⟨1, [2]⟩, ⟨3, [3]⟩, ⟨5, [4]⟩]).2.2
        = ([⟨1, [2]⟩, ⟨3, [3]⟩, ⟨5, [4]⟩] : List TrialScores).length
    ∧ 100 * ((monteCarloCounts [⟨1, [2]⟩, ⟨3, [3]⟩, ⟨5, [4]⟩]).1 : ℚ) / 3
        + 100 * ((monteCarloCounts [⟨1, [2]⟩, ⟨3, [3]⟩, ⟨5, [4]⟩]).2.1 : ℚ) / 3
        + 100 * ((monteCarloCounts [⟨1, [2]⟩, ⟨3, [3]⟩, ⟨5, [4]⟩]).2.2 : ℚ) / 3
        = 100) := by
  have h := C1_outcome_tally [⟨1, [2]⟩, ⟨3, [3]⟩, ⟨5, [4]⟩] (by decide)
    (by intro t ht; fin_cases ht <;> simp)
  exact ⟨by decide, h.1, h.2.1, by simpa using h.2.2.1⟩

/-- C6: the preflop cache key is the sorted hole-card pair together with the
player count, so both hole-card orders give one key, and a second
calculate_odds cache consultation with the same two hole cards in either
order and the same player count returns the value stored by the first one,
leaves the cache unchanged and does not rerun the simulation (whatever
second compute function is supplied). -/
theorem C6_preflop_cache (α : Type) (a b : String) (players : Nat)
    (cache : List (PreKey × α)) (compute compute2 : Unit → α) :
    preflopKey [a, b] players = preflopKey [b, a] players
    ∧ calcOddsPreflop (calcOddsPreflop cache [a, b] players compute).2.1
          [b, a] players compute2
        = ((calcOddsPreflop cache [a, b] players compute).1,
           (calcOddsPreflop cache [a, b] players compute).2.1, false) := by
  have hkey : preflopKey [a, b] players = preflopKey [b, a] players := by
    unfold preflopKey
    rw [pysorted_pair_comm]
  refine ⟨hkey, ?_⟩
  unfold calcOddsPreflop
  rw [← hkey]
  cases h : cache.lookup (preflopKey [a, b] players) with
  | some v => simp [h]
  | none => simp [h, List.lookup]

/-- C8: for a board of 0, 3, 4 or 5 known cards and 2 to 10 players (1 to 9
opponents), the draws of one monte_carlo_odds trial — board completion plus
two cards per opponent — never exhaust a deck of 52 minus hand and board
cards, and the draws of one monte_carlo_preflop_distributions trial never
exhaust the 50-card deck either, so the empty-deck failure of pydraw is
unreachable. -/
theorem C8_deck_not_exhausted (boardLen numPlayers : Nat)
    (deck deck0 : List Nat)
    (hb : boardLen = 0 ∨ boardLen = 3 ∨ boardLen = 4 ∨ boardLen = 5)
    (hp1 : 2 ≤ numPlayers) (hp2 : numPlayers ≤ 10)
    (hdeck : deck.length = deckSizeAfterRemoval boardLen)
    (hdeck0 : deck0.length = deckSizeAfterRemoval 0) :
    (monteCarloTrialDraws boardLen numPlayers deck).isSome
    ∧ (preflopTrialDraws numPlayers deck0).isSome := by
  constructor
  · apply drawN_isSome_of_le
    rw [hdeck]
    unfold trialDrawCount deckSizeAfterRemoval
    omega
  · apply drawN_isSome_of_le
    rw [hdeck0]
    unfold preflopDrawCount deckSizeAfterRemoval
    omega

/-- C8 witness: an empty board, 10 players, and the 50-card decks that
remain after removing two hole cards. -/
theorem C8_witness :
    (0 = 0 ∨ 0 = 3 ∨ 0 = 4 ∨ 0 = 5) ∧ 2 ≤ 10 ∧ 10 ≤ 10
    ∧ (List.range 50).length = deckSizeAfterRemoval 0
    ∧ ((monteCarloTrialDraws 0 10 (List.range 50)).isSome
       ∧ (preflopTrialDraws 10 (List.range 50)).isSome) :=
  ⟨Or.inl rfl, by decide, by decide, by simp [deckSizeAfterRemoval],
   C8_deck_not_exhausted 0 10 (List.range 50) (List.range 50) (Or.inl rfl)
     (by decide) (by decide) (by simp [deckSizeAfterRemoval])
     (by simp [deckSizeAfterRemoval])⟩


theorem charToNat_ofNat {n : Nat} (h : Nat.isValidChar n) : (Char.ofNat n).toNat = n := by
  simp [Char.ofNat, h, Char.ofNatAux, Char.toNat, UInt32.toNat]

theorem toLower_eq_self_of_notin (c : Char) (h : ¬ (c.toNat ≥ 65 ∧ c.toNat ≤ 90)) :
    c.toLower = c := by
  unfold Char.toLower
  simp [h]

theorem toNat_toLower_eq_add32 (c : Char) (h : c.toNat ≥ 65 ∧ c.toNat ≤ 90) :
    c.toLower.toNat = c.toNat + 32 := by
  have h1 : c.toLower = Char.ofNat (c.toNat + 32) := by
    unfold Char.toLower
    simp [h]
  rw [h1, charToNat_ofNat (Or.inl (by omega))]

theorem toLower_idem (c : Char) : c.toLower.toLower = c.toLower := by
  by_cases h : c.toNat ≥ 65 ∧ c.toNat ≤ 90
  · have h2 := toNat_toLower_eq_add32 c h
    apply toLower_eq_self_of_notin
    omega
  · rw [toLower_eq_self_of_notin c h]
    exact toLower_eq_self_of_notin c h

theorem toLower_eq_newline (c : Char) : c.toLower = '\n' ↔ c = '\n' := by
  constructor
  · intro h
    by_cases hc : c.toNat ≥ 65 ∧ c.toNat ≤ 90
    · exfalso
      have h2 := toNat_toLower_eq_add32 c hc
      rw [h] at h2
      have h3 : ('\n').toNat = 10 := by decide
      omega
    · rwa [toLower_eq_self_of_notin c hc] at h
  · intro h
    subst h
    decide

theorem kelvin_toNat : ('\u212A').toNat = 8490 := by decide

theorem pyLower_idem (c : Char) : pyLower (pyLower c) = pyLower c := by
  unfold pyLower
  by_cases hk : c = '\u212A'
  · rw [if_pos hk]
    decide
  · rw [if_neg hk]
    have hnk : ¬ c.toLower = '\u212A' := by
      intro h
      by_cases hr : c.toNat ≥ 65 ∧ c.toNat ≤ 90
      · have h2 := toNat_toLower_eq_add32 c hr
        rw [h, kelvin_toNat] at h2
        omega
      · rw [toLower_eq_self_of_notin c hr] at h
        exact hk h
    rw [if_neg hnk, toLower_idem]

theorem pyLower_eq_newline (c : Char) : pyLower c = '\n' ↔ c = '\n' := by
  unfold pyLower
  by_cases hk : c = '\u212A'
  · rw [if_pos hk]
    constructor
    · intro h
      exact absurd h (by decide)
    · intro h
      rw [h] at hk
      exact absurd hk (by decide)
  · rw [if_neg hk]
    exact toLower_eq_newline c

theorem isRankClassChar_pyLower (c : Char) :
    isRankClassChar (pyLower c) = isRankClassChar c := by
  unfold isRankClassChar
  rw [pyLower_idem]

theorem isSuitClassChar_pyLower (c : Char) :
    isSuitClassChar (pyLower c) = isSuitClassChar c := by
  unfold isSuitClassChar
  rw [pyLower_idem]

theorem pyLower_toNat_lt_128 (c : Char) (h : c.toNat < 128) :
    (pyLower c).toNat < 128 := by
  unfold pyLower
  have hk : ¬ c = '\u212A' := by
    intro he
    rw [he, kelvin_toNat] at h
    omega
  rw [if_neg hk]
  by_cases hr : c.toNat ≥ 65 ∧ c.toNat ≤ 90
  · have h2 := toNat_toLower_eq_add32 c hr
    omega
  · rw [toLower_eq_self_of_notin c hr]
    exact h

theorem head?_dropWhile_not (p : α → Bool) (l : List α) (a : α)
    (h : (l.dropWhile p).head? = some a) : p a = false := by
  induction l with
  | nil => simp [List.dropWhile] at h
  | cons x xs ih =>
      rw [List.dropWhile_cons] at h
      by_cases hx : p x
      · rw [if_pos hx] at h
        exact ih h
      · rw [if_neg hx] at h
        simp only [List.head?_cons, Option.some_inj] at h
        rw [← h]
        simpa using hx

theorem pyStrip_getLast_not_space (s : List Char) (a : Char)
    (h : (pyStrip s).getLast? = some a) : pyIsSpace a = false := by
  unfold pyStrip at h
  rw [List.getLast?_eq_head?_reverse, List.reverse_reverse] at h
  exact head?_dropWhile_not _ _ _ h

theorem mem_pyStrip (s : List Char) (a : Char) (h : a ∈ pyStrip s) : a ∈ s := by
  unfold pyStrip at h
  rw [List.mem_reverse] at h
  have h2 : a ∈ (s.dropWhile pyIsSpace).reverse := (List.dropWhile_sublist _).subset h
  rw [List.mem_reverse] at h2
  exact (List.dropWhile_sublist _).subset h2

/-- A two-character card code: one rank class character followed by one suit
class character — the codes the card pattern accepts, which are the valid
codes of the spec extended by the re.IGNORECASE equivalences. -/
def isValidCode (s : List Char) : Bool :=
  match s with
  | [r, su] => isRankClassChar r && isSuitClassChar su
  | _ => false

theorem parse_card_isSome_iff (s : List Char) :
    (parse_card s).isSome = isValidCode (pyStrip s) := by
  unfold parse_card
  have h1 : ∀ u : List Char,
      (if cardPatternMatch u then some u else none).isSome = cardPatternMatch u := by
    intro u
    by_cases h : cardPatternMatch u <;> simp [h]
  rw [h1]
  have hlast := pyStrip_getLast_not_space s
  generalize pyStrip s = t at hlast ⊢
  rcases t with _ | ⟨a, _ | ⟨b, _ | ⟨c, _ | ⟨d, rest⟩⟩⟩⟩
  · rfl
  · rfl
  · show (isRankClassChar (pyLower a) && isSuitClassChar (pyLower b)) = _
    rw [isRankClassChar_pyLower, isSuitClassChar_pyLower]
    rfl
  · have hc : pyIsSpace c = false := hlast c rfl
    have hcn : ¬ (pyLower c = '\n') := by
      rw [pyLower_eq_newline]
      intro h
      subst h
      exact absurd hc (by decide)
    show (isRankClassChar (pyLower a) && isSuitClassChar (pyLower b)
            && decide (pyLower c = '\n')) = false
    simp [hcn]
  · rfl

theorem mem_canonical52_iff (r su : Char) :
    [r, su] ∈ canonical52 ↔ r ∈ RANKS.map Char.toLower ∧ su ∈ SUITS := by
  unfold canonical52
  simp only [List.mem_flatMap, List.mem_map]
  constructor
  · rintro ⟨x, hx, y, hy, heq⟩
    simp only [List.cons.injEq, and_true] at heq
    obtain ⟨h1, h2⟩ := heq
    subst h1
    subst h2
    exact ⟨hx, hy⟩
  · rintro ⟨hr, hs⟩
    exact ⟨r, hr, su, hs, rfl⟩

theorem ranks_toLower_eq :
    RANKS.map Char.toLower
      = (['2', '3', '4', '5', '6', '7', '8', '9', 't', 'j', 'q', 'k', 'a'] : List Char) := by
  decide

theorem parse_card_output (s c : List Char) (h : parse_card s = some c) :
    c ∈ canonical52 ∨ ∃ r, c = [r, 'ſ'] ∧ [r, 's'] ∈ canonical52 := by
  unfold parse_card at h
  by_cases hm : cardPatternMatch ((pyStrip s).map pyLower)
  · rw [if_pos hm] at h
    have hc : (pyStrip s).map pyLower = c := by
      injection h
    rw [← hc]
    clear h hc
    have hlast := pyStrip_getLast_not_space s
    generalize pyStrip s = t at hm hlast ⊢
    rcases t with _ | ⟨a, _ | ⟨b, _ | ⟨e, _ | ⟨d, rest⟩⟩⟩⟩
    · simp [cardPatternMatch] at hm
    · simp [cardPatternMatch] at hm
    · have hm2 : isRankClassChar (pyLower a) = true ∧ isSuitClassChar (pyLower b) = true := by
        simpa [cardPatternMatch, Bool.and_eq_true] using hm
      have hrank : pyLower a
          ∈ (['2', '3', '4', '5', '6', '7', '8', '9', 't', 'j', 'q', 'k', 'a'] : List Char) := by
        have := hm2.1
        unfold isRankClassChar at this
        rw [pyLower_idem] at this
        simpa using this
      have hsuit : pyLower b ∈ (['s', 'h', 'd', 'c', 'ſ'] : List Char) := by
        have := hm2.2
        unfold isSuitClassChar at this
        rw [pyLower_idem] at this
        simpa using this
      have hr52 : pyLower a ∈ RANKS.map Char.toLower := by
        rw [ranks_toLower_eq]
        exact hrank
      simp only [List.map_cons, List.map_nil]
      simp only [List.mem_cons, List.not_mem_nil, or_false] at hsuit
      rcases hsuit with h | h | h | h | h
      · exact Or.inl (by rw [h, mem_canonical52_iff]; exact ⟨hr52, by decide⟩)
      · exact Or.inl (by rw [h, mem_canonical52_iff]; exact ⟨hr52, by decide⟩)
      · exact Or.inl (by rw [h, mem_canonical52_iff]; exact ⟨hr52, by decide⟩)
      · exact Or.inl (by rw [h, mem_canonical52_iff]; exact ⟨hr52, by decide⟩)
      · refine Or.inr ⟨pyLower a, by rw [h], ?_⟩
        rw [mem_canonical52_iff]
        exact ⟨hr52, by decide⟩
    · exfalso
      have hns : pyIsSpace e = false := hlast e rfl
      have hm2 : pyLower e = '\n' := by
        simp only [cardPatternMatch, List.map_cons, List.map_nil, Bool.and_eq_true,
          decide_eq_true_eq] at hm
        exact hm.2
      rw [pyLower_eq_newline] at hm2
      subst hm2
      exact absurd hns (by decide)
    · simp [cardPatternMatch] at hm
  · rw [if_neg hm] at h
    simp at h

theorem parse_card_mem_canonical52 (s c : List Char)
    (hascii : ∀ ch ∈ s, ch.toNat < 128) (h : parse_card s = some c) :
    c ∈ canonical52 := by
  rcases parse_card_output s c h with hc | ⟨r, hce, _⟩
  · exact hc
  · exfalso
    have hmem : 'ſ' ∈ c := by
      rw [hce]
      exact List.mem_cons_of_mem r (List.mem_cons_self _ _)
    have hcf : c = (pyStrip s).map pyLower := by
      unfold parse_card at h
      by_cases hm : cardPatternMatch ((pyStrip s).map pyLower)
      · rw [if_pos hm] at h
        injection h with h2
        exact h2.symm
      · rw [if_neg hm] at h
        simp at h
    rw [hcf, List.mem_map] at hmem
    obtain ⟨x, hx, hlx⟩ := hmem
    have hx128 : x.toNat < 128 := hascii x (mem_pyStrip s x hx)
    have hlt := pyLower_toNat_lt_128 x hx128
    rw [hlx] at hlt
    have h383 : ('ſ').toNat = 383 := by decide
    omega

/-- C4 (amended): parse_card succeeds exactly when its input, stripped of
leading and trailing whitespace (the full Python whitespace set runs before
matching), is a two-character string of one rank class character followed
by one suit class character, the classes being the exact re.IGNORECASE
match sets: the digits and T J Q K A in both cases plus the Kelvin sign
U+212A for the ranks, and s h d c in both cases plus the long s U+017F for
the suits.  Every successful parse yields either one of the 52 canonical
lowercase codes or one of the long-s codes (the long s survives lowering,
so the parse of the two characters a and long s is itself, outside the
canonical 52); on inputs made of ASCII characters the outputs are exactly
the 52 pairwise distinct canonical codes, and each canonical code parses to
itself. -/
theorem C4_parse_card_amended :
    (∀ s : List Char, (parse_card s).isSome = isValidCode (pyStrip s))
    ∧ (∀ s c : List Char, parse_card s = some c →
        c ∈ canonical52 ∨ ∃ r, c = [r, 'ſ'] ∧ [r, 's'] ∈ canonical52)
    ∧ (∀ s c : List Char, (∀ ch ∈ s, ch.toNat < 128) → parse_card s = some c →
        c ∈ canonical52)
    ∧ parse_card ['a', 'ſ'] = some ['a', 'ſ']
    ∧ (['a', 'ſ'] : List Char) ∉ canonical52
    ∧ (∀ t ∈ canonical52, parse_card t = some t)
    ∧ canonical52.Nodup ∧ canonical52.length = 52 :=
  ⟨parse_card_isSome_iff, parse_card_output, parse_card_mem_canonical52,
   by decide, by decide, by decide, by decide, by decide⟩

/-- C4 counterexample: the three-character string of a space followed by the
code as is not a two-character card code, yet parse_card accepts it (Python
str.strip removes the space before matching). -/
theorem C4_counterexample :
    parse_card [' ', 'a', 's'] = some ['a', 's']
    ∧ ([' ', 'a', 's'] : List Char).length ≠ 2 := by decide

/-- C4 witness: the canonical ASCII code as parses to itself and lies among
the 52 canonical codes. -/
theorem C4_witness :
    (∀ ch ∈ (['a', 's'] : List Char), ch.toNat < 128)
    ∧ parse_card ['a', 's'] = some ['a', 's']
    ∧ (['a', 's'] : List Char) ∈ canonical52 :=
  ⟨by decide, by decide,
   C4_parse_card_amended.2.2.1 ['a', 's'] ['a', 's'] (by decide) (by decide)⟩

/-! ### Helper lemmas: Counter keys and values under permutation -/

theorem mem_counterKeys [DecidableEq α] (l : List α) (a : α) :
    a ∈ counterKeys l ↔ a ∈ l := by
  induction l with
  | nil => simp [counterKeys]
  | cons x xs ih =>
      simp only [counterKeys, List.mem_cons, List.mem_filter, decide_eq_true_eq]
      constructor
      · rintro (rfl | ⟨h1, _⟩)
        · exact Or.inl rfl
        · exact Or.inr (ih.1 h1)
      · rintro (rfl | h)
        · exact Or.inl rfl
        · by_cases hax : a = x
          · exact Or.inl hax
          · exact Or.inr ⟨ih.2 h, hax⟩

theorem nodup_counterKeys [DecidableEq α] (l : List α) : (counterKeys l).Nodup := by
  induction l with
  | nil => simp [counterKeys]
  | cons x xs ih =>
      rw [counterKeys, List.nodup_cons]
      refine ⟨?_, List.Nodup.filter _ ih⟩
      intro hmem
      rw [List.mem_filter] at hmem
      simp at hmem

theorem counterKeys_perm [DecidableEq α] {l l' : List α} (h : List.Perm l l') :
    List.Perm (counterKeys l) (counterKeys l') := by
  refine (List.perm_ext_iff_of_nodup (nodup_counterKeys l) (nodup_counterKeys l')).mpr ?_
  intro a
  rw [mem_counterKeys, mem_counterKeys]
  exact h.mem_iff

theorem counterValues_perm [DecidableEq α] {l l' : List α} (h : List.Perm l l') :
    List.Perm (counterValues l) (counterValues l') := by
  unfold counterValues
  have hf : (fun k => l.count k) = fun k => l'.count k := by
    funext k
    exact h.count_eq k
  rw [hf]
  exact (counterKeys_perm h).map _

theorem count_add_count_le_length [DecidableEq α] (l : List α) (a b : α) (hab : a ≠ b) :
    l.count a + l.count b ≤ l.length := by
  induction l with
  | nil => simp
  | cons x xs ih =>
      rw [List.count_cons, List.count_cons, List.length_cons]
      split_ifs with h1 h2 h2
      · exact absurd ((beq_iff_eq.mp h1).symm.trans (beq_iff_eq.mp h2)) hab
      · omega
      · omega
      · omega

/-! ### Helper lemma: find? agrees on lists with the same members when at
most one member satisfies the predicate -/

theorem find?_congr_of_unique {α} (p : α → Bool) (k1 k2 : List α)
    (hmem : ∀ a, a ∈ k1 ↔ a ∈ k2)
    (huniq : ∀ a b, a ∈ k1 → b ∈ k1 → p a = true → p b = true → a = b) :
    k1.find? p = k2.find? p := by
  cases h1 : k1.find? p with
  | none =>
      rw [List.find?_eq_none] at h1
      symm
      rw [List.find?_eq_none]
      intro x hx
      exact h1 x ((hmem x).2 hx)
  | some a =>
      have hpa : p a = true := List.find?_some h1
      have hma : a ∈ k1 := List.mem_of_find?_eq_some h1
      cases h2 : k2.find? p with
      | none =>
          rw [List.find?_eq_none] at h2
          exact absurd hpa (by simpa using h2 a ((hmem a).1 hma))
      | some b =>
          have hpb : p b = true := List.find?_some h2
          have hmb : b ∈ k1 := (hmem b).2 (List.mem_of_find?_eq_some h2)
          rw [huniq a b hma hmb hpa hpb]

/-! ### Permutation invariance of the analyze_hand components -/

theorem flushSuitOf_perm {l l' : List PyCard} (h : List.Perm l l') (hlen : l.length ≤ 9) :
    flushSuitOf l = flushSuitOf l' := by
  unfold flushSuitOf
  have hs : List.Perm (suitsOf l) (suitsOf l') := h.map _
  have hp : (fun s => decide (5 ≤ (suitsOf l').count s))
      = (fun s => decide (5 ≤ (suitsOf l).count s)) := by
    funext a
    rw [hs.count_eq a]
  rw [hp]
  apply find?_congr_of_unique
  · intro a
    rw [mem_counterKeys, mem_counterKeys]
    exact hs.mem_iff
  · intro a b ha hb hpa hpb
    by_contra hab
    rw [decide_eq_true_eq] at hpa hpb
    have hle := count_add_count_le_length (suitsOf l) a b hab
    have hlen2 : (suitsOf l).length = l.length := by simp [suitsOf]
    omega

theorem flushCardsOf_perm {l l' : List PyCard} (h : List.Perm l l') (hlen : l.length ≤ 9) :
    List.Perm (flushCardsOf l) (flushCardsOf l') := by
  unfold flushCardsOf
  rw [← flushSuitOf_perm h hlen]
  cases flushSuitOf l with
  | none => exact List.Perm.refl _
  | some fs => exact h.filter _

theorem get_straight_perm {rl rl' : List Char} (h : List.Perm rl rl') :
    get_straight rl = get_straight rl' := by
  unfold get_straight
  have h1 : List.Perm (rl.map RANK_TO_VALUE).dedup (rl'.map RANK_TO_VALUE).dedup :=
    (h.map _).dedup
  have h2 : (rl.map RANK_TO_VALUE).dedup.insertionSort (· ≤ ·)
      = (rl'.map RANK_TO_VALUE).dedup.insertionSort (· ≤ ·) :=
    List.eq_of_perm_of_sorted
      (((List.perm_insertionSort _ _).trans h1).trans
        (List.perm_insertionSort _ _).symm)
      (List.sorted_insertionSort _ _) (List.sorted_insertionSort _ _)
  have h3 : (∀ r ∈ (['A', '2', '3', '4', '5'] : List Char), r ∈ rl)
      ↔ (∀ r ∈ (['A', '2', '3', '4', '5'] : List Char), r ∈ rl') := by
    constructor <;> intro hh r hr
    · exact h.mem_iff.1 (hh r hr)
    · exact h.mem_iff.2 (hh r hr)
  rw [h2]
  exact congrArg straightScan (if_congr h3 rfl rfl)

/-! ### Permutation invariance of pymax under an injective key -/

theorem pymax_foldl_mem (key : Char → Nat) (xs : List Char) (b : Char) :
    xs.foldl (fun b y => if key b < key y then y else b) b = b
      ∨ xs.foldl (fun b y => if key b < key y then y else b) b ∈ xs := by
  induction xs generalizing b with
  | nil => exact Or.inl rfl
  | cons x xs ih =>
      simp only [List.foldl_cons]
      by_cases hc : key b < key x
      · rw [if_pos hc]
        rcases ih x with h | h
        · rw [h]
          exact Or.inr (List.mem_cons_self x xs)
        · exact Or.inr (List.mem_cons_of_mem x h)
      · rw [if_neg hc]
        rcases ih b with h | h
        · exact Or.inl h
        · exact Or.inr (List.mem_cons_of_mem x h)

theorem pymax_foldl_ge (key : Char → Nat) (xs : List Char) (b : Char) :
    key b ≤ key (xs.foldl (fun b y => if key b < key y then y else b) b)
    ∧ ∀ y ∈ xs, key y ≤ key (xs.foldl (fun b y => if key b < key y then y else b) b) := by
  induction xs generalizing b with
  | nil => exact ⟨Nat.le_refl _, by simp⟩
  | cons x xs ih =>
      simp only [List.foldl_cons]
      by_cases hc : key b < key x
      · rw [if_pos hc]
        obtain ⟨h1, h2⟩ := ih x
        refine ⟨Nat.le_trans (Nat.le_of_lt hc) h1, ?_⟩
        intro y hy
        rcases List.mem_cons.1 hy with rfl | hy
        · exact h1
        · exact h2 y hy
      · rw [if_neg hc]
        obtain ⟨h1, h2⟩ := ih b
        refine ⟨h1, ?_⟩
        intro y hy
        rcases List.mem_cons.1 hy with rfl | hy
        · exact Nat.le_trans (Nat.le_of_not_lt hc) h1
        · exact h2 y hy

theorem pymax_mem (key : Char → Nat) (l : List Char) (hl : l ≠ []) :
    pymax key l ∈ l := by
  cases l with
  | nil => exact absurd rfl hl
  | cons x xs =>
      simp only [pymax]
      rcases pymax_foldl_mem key xs x with h | h
      · rw [h]
        exact List.mem_cons_self x xs
      · exact List.mem_cons_of_mem x h

theorem pymax_ge (key : Char → Nat) (l : List Char) :
    ∀ y ∈ l, key y ≤ key (pymax key l) := by
  cases l with
  | nil => simp
  | cons x xs =>
      intro y hy
      simp only [pymax]
      obtain ⟨h1, h2⟩ := pymax_foldl_ge key xs x
      rcases List.mem_cons.1 hy with rfl | hy
      · exact h1
      · exact h2 y hy

theorem pymax_perm (key : Char → Nat) {l l' : List Char} (h : List.Perm l l')
    (hne : l ≠ [])
    (hinj : ∀ x ∈ l, ∀ y ∈ l, key x = key y → x = y) :
    pymax key l = pymax key l' := by
  have hne' : l' ≠ [] := by
    intro he
    subst he
    have hlen : l.length = 0 := by simpa using h.length_eq
    exact hne (List.length_eq_zero.1 hlen)
  have ha : pymax key l ∈ l := pymax_mem key l hne
  have hb : pymax key l' ∈ l := h.mem_iff.2 (pymax_mem key l' hne')
  have h1 : key (pymax key l) ≤ key (pymax key l') :=
    pymax_ge key l' _ (h.mem_iff.1 ha)
  have h2 : key (pymax key l') ≤ key (pymax key l) :=
    pymax_ge key l _ hb
  exact hinj _ ha _ hb (Nat.le_antisymm h1 h2)

/-! ### Permutation invariance of the classifier -/

theorem RANK_TO_VALUE_injOn :
    ∀ a ∈ RANKS, ∀ b ∈ RANKS, RANK_TO_VALUE a = RANK_TO_VALUE b → a = b := by
  decide

theorem analyzeRest_perm {l l' : List PyCard} (h : List.Perm l l')
    (hlen : l.length ≤ 9) (hne : l ≠ []) (hvalid : ∀ c ∈ l, validPyCard c) :
    analyzeRest l = analyzeRest l' := by
  have hr : List.Perm (ranksOf l) (ranksOf l') := h.map _
  have hv : List.Perm (counterValues (ranksOf l)) (counterValues (ranksOf l')) :=
    counterValues_perm hr
  have e4 : (4 ∈ counterValues (ranksOf l)) = (4 ∈ counterValues (ranksOf l')) :=
    propext hv.mem_iff
  have e3 : (3 ∈ counterValues (ranksOf l)) = (3 ∈ counterValues (ranksOf l')) :=
    propext hv.mem_iff
  have e2 : (2 ∈ counterValues (ranksOf l)) = (2 ∈ counterValues (ranksOf l')) :=
    propext hv.mem_iff
  have ec : (counterValues (ranksOf l)).count 2 = (counterValues (ranksOf l')).count 2 :=
    hv.count_eq 2
  have ef : flushSuitOf l = flushSuitOf l' := flushSuitOf_perm h hlen
  have es : get_straight (ranksOf l) = get_straight (ranksOf l') := get_straight_perm hr
  have em : pymax RANK_TO_VALUE (ranksOf l) = pymax RANK_TO_VALUE (ranksOf l') := by
    apply pymax_perm _ hr
    · intro he
      apply hne
      cases l with
      | nil => rfl
      | cons c cs => simp [ranksOf] at he
    · intro x hx y hy hxy
      have hx2 : x ∈ RANKS := by
        rw [ranksOf, List.mem_map] at hx
        obtain ⟨c, hc, rfl⟩ := hx
        exact (hvalid c hc).1
      have hy2 : y ∈ RANKS := by
        rw [ranksOf, List.mem_map] at hy
        obtain ⟨c, hc, rfl⟩ := hy
        exact (hvalid c hc).1
      exact RANK_TO_VALUE_injOn x hx2 y hy2 hxy
  unfold analyzeRest
  simp only [e4, e3, e2, ec, ef, es, em]

theorem analyze_hand_length_lt (l : List PyCard) (h : l.length < 5) :
    analyze_hand l = "Not enough cards for hand analysis." := by
  unfold analyze_hand
  rw [if_pos h]

/-- C10 (amended): for sequences of at most 9 valid card codes, the
classifier is invariant under permutation of its input: the output depends
only on the multiset of cards.  (With 10 or more cards two suits can both
reach five cards and the first-found flush suit depends on input order.) -/
theorem C10_perm_invariant (l l' : List PyCard) (hperm : List.Perm l l')
    (hlen : l.length ≤ 9) (hvalid : ∀ c ∈ l, validPyCard c) :
    analyze_hand l = analyze_hand l' := by
  by_cases h5 : l.length < 5
  · rw [analyze_hand_length_lt l h5, analyze_hand_length_lt l'
      (by rw [← hperm.length_eq]; exact h5)]
  · have hne : l ≠ [] := by
      intro he
      subst he
      simp at h5
    have hflush := flushSuitOf_perm hperm hlen
    have hfr : List.Perm (flushRanksOf l) (flushRanksOf l') :=
      (flushCardsOf_perm hperm hlen).map _
    have hfrlen : (flushRanksOf l).length = (flushRanksOf l').length := hfr.length_eq
    have hfs : get_straight (flushRanksOf l) = get_straight (flushRanksOf l') :=
      get_straight_perm hfr
    have hrest := analyzeRest_perm hperm hlen hne hvalid
    have h5' : ¬ l'.length < 5 := by
      rw [← hperm.length_eq]
      exact h5
    unfold analyze_hand
    rw [if_neg h5, if_neg h5']
    rw [hflush, hfrlen, hfs, hrest]

/-- C10 counterexample: with ten cards holding a heart flush and a spade
straight flush, reversing the input changes the label from "Flush" to
"Straight Flush", so the classifier is not permutation invariant on every
sequence of card codes. -/
theorem C10_counterexample :
    analyze_hand [('a', 'h'), ('k', 'h'), ('q', 'h'), ('j', 'h'), ('9', 'h'),
        ('2', 's'), ('3', 's'), ('4', 's'), ('5', 's'), ('6', 's')] = "Flush"
    ∧ analyze_hand ([('a', 'h'), ('k', 'h'), ('q', 'h'), ('j', 'h'), ('9', 'h'),
        ('2', 's'), ('3', 's'), ('4', 's'), ('5', 's'), ('6', 's')] : List PyCard).reverse
        = "Straight Flush"
    ∧ List.Perm ([('a', 'h'), ('k', 'h'), ('q', 'h'), ('j', 'h'), ('9', 'h'),
        ('2', 's'), ('3', 's'), ('4', 's'), ('5', 's'), ('6', 's')] : List PyCard).reverse
        [('a', 'h'), ('k', 'h'), ('q', 'h'), ('j', 'h'), ('9', 'h'),
         ('2', 's'), ('3', 's'), ('4', 's'), ('5', 's'), ('6', 's')] :=
  ⟨by decide, by decide, List.reverse_perm _⟩

/-- C10 witness: a five-card wheel hand compared with its reversal. -/
theorem C10_witness :
    analyze_hand [('A', 'd'), ('2', 'c'), ('3', 'h'), ('4', 's'), ('5', 'd')]
      = analyze_hand ([('A', 'd'), ('2', 'c'), ('3', 'h'), ('4', 's'), ('5', 'd')]
          : List PyCard).reverse :=
  C10_perm_invariant _ _ (List.reverse_perm _).symm (by decide) (by decide)

end PokerHands
